import Mathlib

/-!
# camomile — a verification development

A shallow embedding of the `camomile` HTTP image proxy
(`src/lib/constants.js`, `src/lib/safe-http-client.js`, `src/lib/server.js`,
`src/rehype-github-image/hex-encode.js`) together with proofs about the
request pipeline: the HMAC URL codec, the SSRF validator `checkUrl`, the
redirect-following `safeFetch`, and the request handler `Camomile.handle`.

Modelling conventions:
* byte strings are `List Nat` with every element `< 256`;
* JavaScript strings are Lean `String`s; where Node encodes a string to
  bytes (`hmac.update`, `Buffer.byteLength(s, 'utf8')`) we use `strBytes`,
  and where Node decodes bytes to a string (`String(Buffer.from ...)`) we
  use `bufferToString`, a WHATWG UTF-8 decoder with U+FFFD replacement;
* the network (URL parser, DNS resolver, ipaddr classification, upstream
  `fetch`) is a `World` of pure functions, so a run of the pipeline is a
  deterministic computation;
* a thrown `HttpError(status, message)` is `Err.http status message` and a
  thrown plain `Error(message)` is `Err.plain message`, propagated in
  `Except`;
* the module-level `securityHeaders` object is mutable state threaded
  through `handle`/`write` (the `write` method assigns into its default
  `headers` argument, which aliases that object).
-/

deriving instance DecidableEq for Except

namespace Camomile

/-! ## JavaScript-style header maps and objects

HTTP header collections (`Headers`) compare names case-insensitively; plain
objects used as header records compare keys exactly.  Both are association
lists of `String × String`. -/

/-- ASCII lower-casing of a character, as a numeric code point (used for the
case-insensitive comparisons of `Headers.get` and `String.toLowerCase` on
header names, which are ASCII). -/
def lowerCharN (c : Char) : Nat :=
  if 65 ≤ c.toNat ∧ c.toNat ≤ 90 then c.toNat + 32 else c.toNat

/-- The list of lower-cased code points of a string. -/
def lowerNats (s : String) : List Nat :=
  s.data.map lowerCharN

/-- `String.prototype.toLowerCase` restricted to ASCII (header names). -/
def jsToLower (s : String) : String :=
  ⟨s.data.map fun c =>
    if 65 ≤ c.toNat ∧ c.toNat ≤ 90 then Char.ofNat (c.toNat + 32) else c⟩

/-- `Headers.get(name)`: case-insensitive lookup, first match. -/
def headersGet (hs : List (String × String)) (name : String) : Option String :=
  (hs.find? fun p => lowerNats p.1 == lowerNats name).map (·.2)

/-- JavaScript object property read `m[k]` (exact key, first match; the
writes below keep keys unique). -/
def jsGet : List (String × String) → String → Option String
  | [], _ => none
  | p :: rest, k => if p.1 = k then some p.2 else jsGet rest k

/-- JavaScript object property write `m[k] = v`: overwrite in place if the
key exists, otherwise append. -/
def jsSet (m : List (String × String)) (k v : String) : List (String × String) :=
  if m.any fun p => p.1 = k then
    m.map fun p => if p.1 = k then (k, v) else p
  else m ++ [(k, v)]

/-- JavaScript object spread `{...m, ...l}` for a list `l` of entries:
fold the entries into `m` with property writes. -/
def spreadFold (m : List (String × String)) (l : List (String × String)) :
    List (String × String) :=
  l.foldl (fun a p => jsSet a p.1 p.2) m

/-! ## Hex codec

`hexEncode` is `src/rehype-github-image/hex-encode.js`: every byte becomes
`byte.toString(16).padStart(2, '0')`.  `bufferFromHex` is Node's
`Buffer.from(string, 'hex')`, which decodes two-digit groups and truncates
at the first invalid or incomplete group (it never throws). -/

/-- One lowercase hexadecimal digit, as produced by `Number.toString(16)`. -/
def hexDigitChar (n : Nat) : Char :=
  if n < 10 then Char.ofNat (48 + n) else Char.ofNat (87 + n)

/-- Digits of `n` in base 16 (`Number.toString(16)` for a natural number).
The first argument is structural fuel; `n` itself is always enough. -/
def hexDigitsCore (fuel n : Nat) : List Char :=
  match fuel with
  | 0 => [hexDigitChar (n % 16)]
  | f + 1 =>
    if n < 16 then [hexDigitChar n]
    else hexDigitsCore f (n / 16) ++ [hexDigitChar (n % 16)]

/-- `n.toString(16)` for a natural number `n`, as a character list. -/
def natToHexDigits (n : Nat) : List Char :=
  hexDigitsCore n n

/-- `.padStart(2, '0')`. -/
def padStart2 (l : List Char) : List Char :=
  if l.length < 2 then List.replicate (2 - l.length) '0' ++ l else l

/-- `hexEncode(bytes)` from `src/rehype-github-image/hex-encode.js`:
`Array.from(bytes, (b) => b.toString(16).padStart(2, '0')).join('')`. -/
def hexEncode (bytes : List Nat) : String :=
  ⟨bytes.flatMap fun b => padStart2 (natToHexDigits b)⟩

/-- Value of a hexadecimal digit character, if it is one. -/
def hexDigitVal (c : Char) : Option Nat :=
  if 48 ≤ c.toNat ∧ c.toNat ≤ 57 then some (c.toNat - 48)
  else if 97 ≤ c.toNat ∧ c.toNat ≤ 102 then some (c.toNat - 87)
  else if 65 ≤ c.toNat ∧ c.toNat ≤ 70 then some (c.toNat - 55)
  else none

/-- Node `Buffer.from(s, 'hex')` on a character list: parse two-digit
groups, truncating at the first invalid or incomplete group. -/
def bufferFromHexChars : List Char → List Nat
  | c1 :: c2 :: rest =>
    match hexDigitVal c1, hexDigitVal c2 with
    | some hi, some lo => (16 * hi + lo) :: bufferFromHexChars rest
    | _, _ => []
  | _ => []

/-- Node `Buffer.from(s, 'hex')`. -/
def bufferFromHex (s : String) : List Nat :=
  bufferFromHexChars s.data

/-! ## UTF-8

`strBytes` is the UTF-8 encoding of a string (what `hmac.update(string)`
and `Buffer.byteLength(string, 'utf8')` operate on).  `bufferToString` is
`buffer.toString()`, i.e. WHATWG UTF-8 decoding with U+FFFD replacement
for invalid sequences. -/

/-- UTF-8 encoding of a code point. -/
def utf8EncodeCp (c : Nat) : List Nat :=
  if c < 128 then [c]
  else if c < 2048 then [192 + c / 64, 128 + c % 64]
  else if c < 65536 then [224 + c / 4096, 128 + c / 64 % 64, 128 + c % 64]
  else [240 + c / 262144, 128 + c / 4096 % 64, 128 + c / 64 % 64, 128 + c % 64]

/-- UTF-8 bytes of a string. -/
def strBytes (s : String) : List Nat :=
  s.data.flatMap fun c => utf8EncodeCp c.toNat

/-- Is a byte a UTF-8 continuation byte (`0x80`–`0xBF`)? -/
def isCont (b : Nat) : Bool :=
  128 ≤ b && b ≤ 191

/-- WHATWG UTF-8 decoding to code points, replacing each maximal invalid
subpart with U+FFFD (`0xFFFD`), as Node's `buffer.toString()` does.  The
fuel argument makes the recursion structural; every step consumes at least
one byte, so fuel equal to the byte count is always enough. -/
def utf8DecodeLoop : Nat → List Nat → List Nat
  | 0, _ => []
  | _, [] => []
  | fuel + 1, b1 :: r1 =>
    if b1 < 128 then b1 :: utf8DecodeLoop fuel r1
    else if 194 ≤ b1 && b1 ≤ 223 then
      match r1 with
      | b2 :: r2 =>
        if isCont b2 then ((b1 - 192) * 64 + (b2 - 128)) :: utf8DecodeLoop fuel r2
        else 65533 :: utf8DecodeLoop fuel r1
      | [] => [65533]
    else if 224 ≤ b1 && b1 ≤ 239 then
      match r1 with
      | b2 :: r2 =>
        if (if b1 = 224 then 160 ≤ b2 && b2 ≤ 191
            else if b1 = 237 then 128 ≤ b2 && b2 ≤ 159
            else isCont b2) then
          match r2 with
          | b3 :: r3 =>
            if isCont b3 then
              ((b1 - 224) * 4096 + (b2 - 128) * 64 + (b3 - 128)) ::
                utf8DecodeLoop fuel r3
            else 65533 :: utf8DecodeLoop fuel r2
          | [] => [65533]
        else 65533 :: utf8DecodeLoop fuel r1
      | [] => [65533]
    else if 240 ≤ b1 && b1 ≤ 244 then
      match r1 with
      | b2 :: r2 =>
        if (if b1 = 240 then 144 ≤ b2 && b2 ≤ 191
            else if b1 = 244 then 128 ≤ b2 && b2 ≤ 143
            else isCont b2) then
          match r2 with
          | b3 :: r3 =>
            if isCont b3 then
              match r3 with
              | b4 :: r4 =>
                if isCont b4 then
                  ((b1 - 240) * 262144 + (b2 - 128) * 4096 + (b3 - 128) * 64 +
                      (b4 - 128)) :: utf8DecodeLoop fuel r4
                else 65533 :: utf8DecodeLoop fuel r3
              | [] => [65533]
            else 65533 :: utf8DecodeLoop fuel r2
          | [] => [65533]
        else 65533 :: utf8DecodeLoop fuel r1
      | [] => [65533]
    else 65533 :: utf8DecodeLoop fuel r1

/-- WHATWG UTF-8 decoding of a byte list to code points. -/
def utf8DecodeCps (l : List Nat) : List Nat :=
  utf8DecodeLoop l.length l

/-- Node `buffer.toString()` (UTF-8 with replacement). -/
def bufferToString (bytes : List Nat) : String :=
  ⟨(utf8DecodeCps bytes).map Char.ofNat⟩

/-- `Buffer.byteLength(s, 'utf8')`. -/
def utf8ByteLength (s : String) : Nat :=
  (strBytes s).length

/-! ## SHA-1 and HMAC-SHA-1

`crypto.createHmac('sha1', secret)` over byte strings, implemented from
the SHA-1 specification (FIPS 180) so the HMAC URL codec is executable. -/

/-- 2^32. -/
def w32 : Nat := 4294967296

/-- Addition modulo 2^32. -/
def add32 (a b : Nat) : Nat := (a + b) % w32

/-- Left rotation of a 32-bit word. -/
def rotl32 (x s : Nat) : Nat :=
  (((x % w32) <<< s) % w32) ||| ((x % w32) >>> (32 - s))

/-- The SHA-1 round function `f_t`. -/
def sha1F (t b c d : Nat) : Nat :=
  if t < 20 then (b &&& c) ||| ((b ^^^ 4294967295) &&& d)
  else if t < 40 then b ^^^ c ^^^ d
  else if t < 60 then (b &&& c) ||| (b &&& d) ||| (c &&& d)
  else b ^^^ c ^^^ d

/-- The SHA-1 round constant `K_t`. -/
def sha1K (t : Nat) : Nat :=
  if t < 20 then 1518500249
  else if t < 40 then 1859775393
  else if t < 60 then 2400959708
  else 3395469782

/-- Expand a 16-word block to the 80-word message schedule. -/
def sha1Schedule (block : List Nat) : List Nat :=
  (List.range 80).foldl
    (fun ws t =>
      if t < 16 then ws ++ [block.getD t 0]
      else
        ws ++ [rotl32 ((ws.getD (t - 3) 0) ^^^ (ws.getD (t - 8) 0) ^^^
          (ws.getD (t - 14) 0) ^^^ (ws.getD (t - 16) 0)) 1])
    []

/-- One SHA-1 block compression on the five-word state. -/
def sha1Compress (h : List Nat) (block : List Nat) : List Nat :=
  let ws := sha1Schedule block
  let s :=
    (List.range 80).foldl
      (fun s t =>
        match s with
        | (a, b, c, d, e) =>
          ((rotl32 a 5 + sha1F t b c d + e + sha1K t + ws.getD t 0) % w32,
            a, rotl32 b 30, c, d))
      (h.getD 0 0, h.getD 1 0, h.getD 2 0, h.getD 3 0, h.getD 4 0)
  match s with
  | (a, b, c, d, e) =>
    [add32 (h.getD 0 0) a, add32 (h.getD 1 0) b, add32 (h.getD 2 0) c,
      add32 (h.getD 3 0) d, add32 (h.getD 4 0) e]

/-- Big-endian bytes of `n`, `len` bytes wide. -/
def toBeBytes (n len : Nat) : List Nat :=
  (List.range len).map fun i => (n >>> (8 * (len - 1 - i))) &&& 255

/-- SHA-1 padding: append `0x80`, zeros, and the 64-bit bit length. -/
def sha1Pad (msg : List Nat) : List Nat :=
  msg ++ [128] ++ List.replicate ((119 - msg.length % 64) % 64) 0 ++
    toBeBytes (8 * msg.length) 8

/-- Big-endian 32-bit words of a byte list (length a multiple of 4). -/
def bytesToWords : List Nat → List Nat
  | a :: b :: c :: d :: rest => (((a * 256 + b) * 256 + c) * 256 + d) :: bytesToWords rest
  | _ => []

/-- Fold SHA-1 compression over the 16-word blocks of a word list.  The
first argument is structural fuel; the word-list length is enough. -/
def sha1BlocksCore : Nat → List Nat → List Nat → List Nat
  | 0, h, _ => h
  | f + 1, h, ws =>
    match ws with
    | [] => h
    | _ => sha1BlocksCore f (sha1Compress h (ws.take 16)) (ws.drop 16)

/-- SHA-1 of a byte string, as 20 bytes. -/
def sha1 (msg : List Nat) : List Nat :=
  let padded := bytesToWords (sha1Pad msg)
  let h := sha1BlocksCore padded.length
    [1732584193, 4023233417, 2562383102, 271733878, 3285377520] padded
  h.flatMap fun x => toBeBytes x 4

/-- HMAC-SHA-1 (`crypto.createHmac('sha1', key).update(msg).digest()`). -/
def hmacSha1 (key msg : List Nat) : List Nat :=
  let k0 := if key.length > 64 then sha1 key else key
  let k := k0 ++ List.replicate (64 - k0.length) 0
  sha1 ((k.map fun b => b ^^^ 92) ++ sha1 ((k.map fun b => b ^^^ 54) ++ msg))

/-! ## Constants (`src/lib/constants.js`) -/

/-- The `securityHeaders` table.  In the source the Content-Security-Policy
value is written with ASCII apostrophes, escaped here as `\x27`. -/
def securityHeaders : List (String × String) :=
  [("X-Frame-Options", "deny"),
    ("X-XSS-Protection", "1; mode=block"),
    ("X-Content-Type-Options", "nosniff"),
    ("Content-Security-Policy",
      "default-src \x27none\x27; img-src data:; style-src \x27unsafe-inline\x27"),
    ("Strict-Transport-Security", "max-age=31536000; includeSubDomains")]

/-- `defaultRequestHeaders`: request headers forwarded to the remote
server. -/
def defaultRequestHeaders : List String :=
  ["Accept", "Accept-Charset", "Accept-Language", "Cache-Control",
    "If-None-Match", "If-Modified-Since", "Range"]

/-- `defaultResponseHeaders`: response headers forwarded to the client. -/
def defaultResponseHeaders : List String :=
  ["Accept-Ranges", "Cache-Control", "Content-Length", "Content-Encoding",
    "Content-Range", "Content-Type", "ETag", "Expires", "Last-Modified",
    "Transfer-Encoding"]

/-- `defaultMimeTypes`: the MIME types camomile allows. -/
def defaultMimeTypes : List String :=
  ["image/bmp", "image/cgm", "image/g3fax", "image/gif", "image/ief",
    "image/jp2", "image/jpeg", "image/jpg", "image/pict", "image/png",
    "image/prs.btif", "image/svg+xml", "image/tiff",
    "image/vnd.adobe.photoshop", "image/vnd.djvu", "image/vnd.dwg",
    "image/vnd.dxf", "image/vnd.fastbidsheet", "image/vnd.fpx",
    "image/vnd.fst", "image/vnd.fujixerox.edmics-mmr",
    "image/vnd.fujixerox.edmics-rlc", "image/vnd.microsoft.icon",
    "image/vnd.ms-modi", "image/vnd.net-fpx", "image/vnd.wap.wbmp",
    "image/vnd.xiff", "image/webp", "image/x-cmu-raster", "image/x-cmx",
    "image/x-icon", "image/x-macpaint", "image/x-pcx", "image/x-pict",
    "image/x-portable-anymap", "image/x-portable-bitmap",
    "image/x-portable-graymap", "image/x-portable-pixmap",
    "image/x-quicktime", "image/x-rgb", "image/x-xbitmap",
    "image/x-xpixmap", "image/x-xwindowdump"]

/-! ## The network world

`checkUrl` and `safeFetch` interact with the platform: the WHATWG URL
parser (`new URL`), the DNS resolver (`dns.lookup`), the `ipaddr.js`
range classification, and the HTTP transport (`fetch`).  A `World`
packages these as pure functions, so one run of the pipeline is a
deterministic computation over a fixed world. -/

/-- The pieces of a parsed URL that `checkUrl` reads. -/
structure UrlParts where
  protocol : String
  hostname : String
deriving DecidableEq

/-- An upstream HTTP response as `safeFetch` observes it: a status, the
response headers, and the body as the list of chunks the stream reader
yields (`none` when there is no body). -/
structure Response where
  status : Nat
  headers : List (String × String)
  body : Option (List (List Nat))
deriving DecidableEq

/-- The platform: URL parser, DNS resolver, IP-range classifier, and the
HTTP transport.  `fetch` is keyed by the URL; the forwarded request
headers do not influence the observations the claims are about. -/
structure World where
  parseUrl : String → Option UrlParts
  dnsLookup : String → Option String
  ipRange : String → String
  fetch : String → Response

/-- A thrown error: `Err.http` is an `HttpError(statusCode, message)`,
`Err.plain` a plain `Error(message)`. -/
inductive Err where
  | http (statusCode : Nat) (message : String)
  | plain (message : String)
deriving DecidableEq

/-! ## `checkUrl` and `safeFetch` (`src/lib/safe-http-client.js`) -/

/-- The body of `checkUrl` after `new URL(url)` has succeeded: reject a
protocol outside `['http:', 'https:']`, resolve the host, classify the
address, and require the `unicast` range. -/
def checkUrlParsed (w : World) (validUrl : UrlParts) : Except String Unit :=
  if validUrl.protocol ∉ ["http:", "https:"] then
    .error ("Unexpected non-http protocol `" ++ validUrl.protocol ++
      "`, expected `http:` or `https:`")
  else
    match w.dnsLookup validUrl.hostname with
    | none => .error ("Could not look up host `" ++ validUrl.hostname ++ "`")
    | some address =>
      if w.ipRange address ≠ "unicast" then .error "Bad url host"
      else .ok ()

/-- `checkUrl(url)`: parse the URL (Node's `new URL` throws a `TypeError`
with message `Invalid URL` on failure), reject non-http(s) protocols,
resolve the host, and require a `unicast` address range. -/
def checkUrl (w : World) (url : String) : Except String Unit :=
  match w.parseUrl url with
  | none => .error "Invalid URL"
  | some validUrl => checkUrlParsed w validUrl

/-- `const maxRedirects = 3`. -/
def maxRedirects : Nat := 3

/-- `const redirectCodes = new Set([301, 302, 303, 307, 308])`. -/
def redirectCodes : List Nat := [301, 302, 303, 307, 308]

/-- Message for a redirect without a usable `Location`. -/
def locationMsg : String :=
  "Unexpected missing `Location` header in redirect response by remote server"

/-- Message for a missing or empty `Content-Type`. -/
def ctMissingMsg : String :=
  "Unexpected missing `Content-type` header in remote server response"

/-- Message for a disallowed `Content-Type`. -/
def ctBadMsg : String :=
  "Unexpected non-image `Content-type` in remote server response, this might not be an image or it might not be supported by camomile"

/-- Message when the size cap fires. -/
def tooLargeMsg : String := "Unexpected too large `Content-Length`"

/-- The `while (true)` redirect loop of `safeFetch`: fetch the URL; if the
status is a redirect code and fewer than `maxRedirects` redirects have
been followed, read `Location`, run `checkUrl` on it (its failure is a
plain `Error`, not an `HttpError`), and loop on the new URL.  The result
pairs the list of URLs actually fetched, in order, with the outcome.  The
fuel argument makes the recursion structural; `fetchLoop` below starts it
with enough fuel that the `0` case is unreachable. -/
def fetchLoopCore (w : World) : Nat → String → Nat → List String × Except Err Response
  | 0, url, _ => ([url], .ok (w.fetch url))
  | fuel + 1, url, redirectCount =>
    if redirectCodes.contains (w.fetch url).status ∧ redirectCount < maxRedirects then
      match headersGet (w.fetch url).headers "location" with
      | none => ([url], .error (.http 400 locationMsg))
      | some redirectedUrl =>
        if redirectedUrl = "" then ([url], .error (.http 400 locationMsg))
        else
          match checkUrl w redirectedUrl with
          | .error m => ([url], .error (.plain m))
          | .ok _ =>
            (url :: (fetchLoopCore w fuel redirectedUrl (redirectCount + 1)).1,
              (fetchLoopCore w fuel redirectedUrl (redirectCount + 1)).2)
    else ([url], .ok (w.fetch url))

/-- The redirect loop started at `redirectCount = 0`. -/
def fetchLoop (w : World) (url : String) : List String × Except Err Response :=
  fetchLoopCore w (maxRedirects + 1) url 0

/-- The result of `safeFetch`: `buffer` is `Buffer.concat(chunks)` (absent
for `HEAD`), `headers` the response headers. -/
structure SafeFetchResult where
  buffer : Option (List Nat)
  headers : List (String × String)
deriving DecidableEq

/-- The body-reading loop of `safeFetch`: push each chunk and, when
`maxSize` is set (JavaScript truthiness: defined and nonzero), count
bytes and throw `HttpError(413)` as soon as the running count exceeds it.
Later chunks are never read. -/
def readBody (maxSize : Option Nat) (acc : Nat) : List (List Nat) → Except Err (List (List Nat))
  | [] => .ok []
  | chunk :: rest =>
    match maxSize with
    | some m =>
      if m ≠ 0 then
        if acc + chunk.length > m then .error (.http 413 tooLargeMsg)
        else (readBody (some m) (acc + chunk.length) rest).map (chunk :: ·)
      else (readBody (some m) acc rest).map (chunk :: ·)
    | none => (readBody none acc rest).map (chunk :: ·)

/-- The tail of `safeFetch` after the content-type checks: return headers
only for `HEAD`, otherwise stream the body under the size cap. -/
def safeFetchBody (response : Response) (method : String) (maxSize : Option Nat) :
    Except Err SafeFetchResult :=
  if method = "HEAD" then .ok ⟨none, response.headers⟩
  else
    match response.body with
    | none => .error (.http 400 "Unexpected missing remote server response body")
    | some chunks =>
      (readBody maxSize 0 chunks).map fun cs => ⟨some cs.flatten, response.headers⟩

/-- The tail of `safeFetch` on the final response of the redirect loop:
require a non-empty `Content-Type` that is a member of
`defaultMimeTypes`, then read the body. -/
def safeFetchResponse (response : Response) (method : String) (maxSize : Option Nat) :
    Except Err SafeFetchResult :=
  match headersGet response.headers "content-type" with
  | none => .error (.http 400 ctMissingMsg)
  | some contentType =>
    if contentType = "" then .error (.http 400 ctMissingMsg)
    else if contentType ∉ defaultMimeTypes then .error (.http 400 ctBadMsg)
    else safeFetchBody response method maxSize

/-- `safeFetch(url, options, maxSize)`: follow the redirect loop (which
rethrows its own errors), then check and stream the final response. -/
def safeFetch (w : World) (url : String) (method : String) (maxSize : Option Nat) :
    Except Err SafeFetchResult :=
  match (fetchLoop w url).2 with
  | .error e => .error e
  | .ok response => safeFetchResponse response method maxSize

/-! ## The server (`src/lib/server.js`) -/

/-- An inbound request as `handle` reads it. -/
structure Request where
  method : String
  url : String
deriving DecidableEq

/-- A response written to the client: the status and headers passed to
`writeHead`, and the bytes written (`none` when `end()` is called without
a body, as on the HEAD success path). -/
structure WrittenResponse where
  status : Nat
  headers : List (String × String)
  body : Option (List Nat)
deriving DecidableEq

/-- JavaScript `String.prototype.split('/')`. -/
def splitSlashChars : List Char → List Char → List String
  | [], acc => [⟨acc.reverse⟩]
  | c :: rest, acc =>
    if c = '/' then ⟨acc.reverse⟩ :: splitSlashChars rest []
    else splitSlashChars rest (c :: acc)

/-- `url.split('/')`. -/
def splitOnSlash (s : String) : List String :=
  splitSlashChars s.data []

/-- `filterHeaders(allowedHeaders)(incomingHeaders)`: for each allow-list
key, look the lower-cased key up in the incoming headers and, when
present, write it under the allow-list casing. -/
def filterHeaders (allowed : List String) (incoming : List (String × String)) :
    List (String × String) :=
  allowed.foldl
    (fun acc key =>
      match headersGet incoming (jsToLower key) with
      | some value => jsSet acc key value
      | none => acc)
    []

/-- `Camomile.verifyHmac(receivedDigest, hex)`: hex-decode the URL
(`String(Buffer.from(hex, 'hex'))`), recompute the HMAC-SHA-1 digest of
the decoded URL under the secret, render it as lowercase hex, and compare
with the received digest. -/
def verifyHmac (secret receivedDigest hex : String) : Except String String :=
  if hexEncode (hmacSha1 (strBytes secret)
      (strBytes (bufferToString (bufferFromHex hex)))) ≠ receivedDigest then
    .error "URL integrity check failed"
  else .ok (bufferToString (bufferFromHex hex))

/-- `Camomile.write(response, status, body, headers = securityHeaders)` in
the default-headers case: unless the status is 204, assign
`Content-Length` into the headers object — which is the module-level
`securityHeaders` object itself, so the assignment mutates it.  The first
component is the new state of that object. -/
def write (sec : List (String × String)) (status : Nat) (body : String) :
    List (String × String) × WrittenResponse :=
  let sec2 := if status ≠ 204 then
      jsSet sec "Content-Length" (toString (utf8ByteLength body))
    else sec
  (sec2, ⟨status, sec2, some (strBytes body)⟩)

/-- The 2xx response header object of `handle`:
`{...securityHeaders, ...filterResponseHeaders(responseHeaders), Via: serverName}`,
built on the current state `sec` of the module-level `securityHeaders`
object. -/
def successHeaders (sec : List (String × String)) (upstream : List (String × String))
    (serverName : String) : List (String × String) :=
  jsSet (spreadFold sec (filterHeaders defaultResponseHeaders upstream)) "Via" serverName

/-- The tail of `Camomile.handle` from the `safeFetch` call on: an
`HttpError` is written as its own status and message, any other error as
`500 Internal server error` (a client abort is not modelled — the world
is deterministic), and a success is emitted as 204 (HEAD, no body) or
200 with the buffered body, under the success header object. -/
def handleFetch (w : World) (serverName : String) (maxSize : Option Nat)
    (sec : List (String × String)) (method url : String) :
    List (String × String) × WrittenResponse :=
  match safeFetch w url method maxSize with
  | .error (.http statusCode m) => write sec statusCode m
  | .error (.plain _) => write sec 500 "Internal server error"
  | .ok result =>
    if method = "HEAD" then
      (sec, ⟨204, successHeaders sec result.headers serverName, none⟩)
    else (sec, ⟨200, successHeaders sec result.headers serverName, result.buffer⟩)

/-- `Camomile.handle` from the `checkUrl` call on: a `checkUrl` failure is
written as status 400 with the thrown message. -/
def handleChecked (w : World) (serverName : String) (maxSize : Option Nat)
    (sec : List (String × String)) (method decodedUrl : String) :
    List (String × String) × WrittenResponse :=
  match checkUrl w decodedUrl with
  | .error m => write sec 400 m
  | .ok _ => handleFetch w serverName maxSize sec method decodedUrl

/-- `Camomile.handle` from the `verifyHmac` call on: a thrown signature
error is written as `403 Bad signature`. -/
def handleVerified (w : World) (secret serverName : String) (maxSize : Option Nat)
    (sec : List (String × String)) (method receivedDigest hex : String) :
    List (String × String) × WrittenResponse :=
  match verifyHmac secret receivedDigest hex with
  | .error _ => write sec 403 "Bad signature"
  | .ok decodedUrl => handleChecked w serverName maxSize sec method decodedUrl

/-- `Camomile.handle(request, response)`: the request state machine.
`sec` is the current state of the module-level `securityHeaders` object;
the result pairs its new state with the response written to the client.
Non-GET/HEAD methods get 405; a path that does not split into at least
three segments gets 404; then the second and third segments feed the
HMAC check and the pipeline continues in `handleVerified`. -/
def handle (w : World) (secret serverName : String) (maxSize : Option Nat)
    (sec : List (String × String)) (req : Request) :
    List (String × String) × WrittenResponse :=
  if req.method ≠ "GET" ∧ req.method ≠ "HEAD" then
    write sec 405 "Method not allowed"
  else if (splitOnSlash req.url).length < 3 then write sec 404 "Malformed request"
  else
    match splitOnSlash req.url with
    | _ :: receivedDigest :: hex :: _ =>
      handleVerified w secret serverName maxSize sec req.method receivedDigest hex
    | _ => write sec 404 "Malformed request"

/-! ## Lemmas on the JavaScript object model -/

theorem jsGet_append (l1 l2 : List (String × String)) (k : String) :
    jsGet (l1 ++ l2) k =
      match jsGet l1 k with
      | some v => some v
      | none => jsGet l2 k := by
  induction l1 with
  | nil => simp [jsGet]
  | cons p rest ih =>
    by_cases h : p.1 = k
    · simp [jsGet, h]
    · simpa [jsGet, h] using ih

theorem jsGet_eq_none_of_forall (m : List (String × String)) (k : String)
    (h : ∀ p ∈ m, p.1 ≠ k) : jsGet m k = none := by
  induction m with
  | nil => rfl
  | cons p rest ih =>
    rw [jsGet, if_neg (h p (List.mem_cons_self p rest))]
    exact ih fun q hq => h q (List.mem_cons_of_mem p hq)

theorem jsGet_eq_some_mem (m : List (String × String)) (k w : String)
    (h : jsGet m k = some w) : (k, w) ∈ m := by
  induction m with
  | nil => cases h
  | cons p rest ih =>
    rw [jsGet] at h
    by_cases hp : p.1 = k
    · rw [if_pos hp] at h
      obtain ⟨p1, p2⟩ := p
      obtain rfl : p2 = w := by injection h
      obtain rfl : p1 = k := hp
      exact List.mem_cons_self _ _
    · exact List.mem_cons_of_mem p (ih (by rwa [if_neg hp] at h))

theorem jsGet_ne_none_of_mem (m : List (String × String)) (k : String)
    (p : String × String) (hp : p ∈ m) (hk : p.1 = k) : jsGet m k ≠ none := by
  induction m with
  | nil => cases hp
  | cons q rest ih =>
    rw [jsGet]
    by_cases hq : q.1 = k
    · simp [hq]
    · rw [if_neg hq]
      rcases List.mem_cons.1 hp with hqp | hqp
      · exact absurd (hqp ▸ hk) hq
      · exact ih hqp

theorem jsGet_map_set_self (m : List (String × String)) (k v : String) :
    jsGet (m.map fun p => if p.1 = k then (k, v) else p) k =
      if m.any (fun p => p.1 = k) then some v else none := by
  induction m with
  | nil => simp [jsGet]
  | cons p rest ih =>
    by_cases h : p.1 = k
    · simp [jsGet, h]
    · rw [List.map_cons, jsGet,
        if_neg (show ¬(if p.1 = k then (k, v) else p).1 = k from by simp [h]),
        List.any_cons, show (decide (p.1 = k) : Bool) = false from by simp [h],
        Bool.false_or]
      exact ih

theorem jsGet_map_set_ne (m : List (String × String)) (k v k2 : String)
    (h : k2 ≠ k) :
    jsGet (m.map fun p => if p.1 = k then (k, v) else p) k2 = jsGet m k2 := by
  induction m with
  | nil => simp [jsGet]
  | cons p rest ih =>
    by_cases hp : p.1 = k
    · simpa [jsGet, hp, h, Ne.symm h] using ih
    · by_cases hp2 : p.1 = k2
      · simp [jsGet, hp, hp2, h, Ne.symm h]
      · simpa [jsGet, hp, hp2] using ih

theorem jsGet_jsSet_self (m : List (String × String)) (k v : String) :
    jsGet (jsSet m k v) k = some v := by
  unfold jsSet
  by_cases h : m.any fun p => p.1 = k
  · rw [if_pos h, jsGet_map_set_self, if_pos h]
  · rw [if_neg h, jsGet_append, jsGet_eq_none_of_forall m k (by
      intro p hp hpk
      exact h (List.any_eq_true.2 ⟨p, hp, by simpa using hpk⟩))]
    simp [jsGet]

theorem jsGet_jsSet_ne (m : List (String × String)) (k v k2 : String)
    (h : k2 ≠ k) : jsGet (jsSet m k v) k2 = jsGet m k2 := by
  unfold jsSet
  by_cases hm : m.any fun p => p.1 = k
  · rw [if_pos hm, jsGet_map_set_ne _ _ _ _ h]
  · rw [if_neg hm, jsGet_append]
    cases hget : jsGet m k2 with
    | some w => rfl
    | none => simp [jsGet, Ne.symm h]

theorem mem_jsSet (m : List (String × String)) (k v : String) (p : String × String)
    (hp : p ∈ jsSet m k v) : p = (k, v) ∨ (p ∈ m ∧ p.1 ≠ k) := by
  unfold jsSet at hp
  by_cases hm : m.any fun p => p.1 = k
  · rw [if_pos hm] at hp
    rcases List.mem_map.1 hp with ⟨q, hq, hqe⟩
    by_cases hqk : q.1 = k
    · left
      simpa [hqk] using hqe.symm
    · right
      rw [if_neg hqk] at hqe
      exact hqe ▸ ⟨hq, hqk⟩
  · rw [if_neg hm] at hp
    rcases List.mem_append.1 hp with hin | hone
    · by_cases hpk : p.1 = k
      · exact absurd (List.any_eq_true.2 ⟨p, hin, by simpa using hpk⟩) hm
      · exact Or.inr ⟨hin, hpk⟩
    · left
      simpa using hone

theorem spreadFold_get (l m : List (String × String)) (k : String) :
    jsGet (spreadFold m l) k =
      match jsGet l.reverse k with
      | some v => some v
      | none => jsGet m k := by
  induction l generalizing m with
  | nil => simp [spreadFold, jsGet]
  | cons p rest ih =>
    simp only [spreadFold, List.foldl_cons, List.reverse_cons]
    rw [show List.foldl (fun a q => jsSet a q.1 q.2) (jsSet m p.1 p.2) rest =
      spreadFold (jsSet m p.1 p.2) rest from rfl, ih, jsGet_append]
    cases hfind : jsGet rest.reverse k with
    | some w => rfl
    | none =>
      by_cases hpk : p.1 = k
      · subst hpk
        simp [jsGet, jsGet_jsSet_self]
      · simp [jsGet, hpk, jsGet_jsSet_ne _ _ _ _ (Ne.symm hpk)]

theorem jsGet_reverse_unique (l : List (String × String)) (k v : String)
    (huniq : ∀ p ∈ l, p.1 = k → p.2 = v) :
    jsGet l.reverse k = jsGet l k := by
  cases hl : jsGet l k with
  | none =>
    refine jsGet_eq_none_of_forall _ _ fun p hp hpk => ?_
    exact jsGet_ne_none_of_mem l k p (List.mem_reverse.1 hp) hpk hl
  | some w =>
    have hw : w = v := huniq (k, w) (jsGet_eq_some_mem l k w hl) rfl
    cases hrev : jsGet l.reverse k with
    | none =>
      exact absurd hrev (jsGet_ne_none_of_mem _ k (k, w)
        (List.mem_reverse.2 (jsGet_eq_some_mem l k w hl)) rfl)
    | some w2 =>
      have hw2 : w2 = v :=
        huniq (k, w2) (List.mem_reverse.1 (jsGet_eq_some_mem _ k w2 hrev)) rfl
      rw [hw, hw2]

theorem mem_filterFold (inc : List (String × String)) (allowed : List String)
    (acc : List (String × String)) (p : String × String)
    (hp : p ∈ allowed.foldl
      (fun acc key =>
        match headersGet inc (jsToLower key) with
        | some value => jsSet acc key value
        | none => acc) acc) :
    p ∈ acc ∨ (p.1 ∈ allowed ∧ headersGet inc (jsToLower p.1) = some p.2) := by
  induction allowed generalizing acc with
  | nil => exact Or.inl hp
  | cons a rest ih =>
    simp only [List.foldl_cons] at hp
    rcases ih _ hp with hacc | hrest
    · cases hG : headersGet inc (jsToLower a) with
      | none => rw [hG] at hacc; exact Or.inl hacc
      | some v =>
        rw [hG] at hacc
        rcases mem_jsSet _ _ _ _ hacc with hpa | ⟨hin, _⟩
        · right
          subst hpa
          exact ⟨List.mem_cons_self a rest, hG⟩
        · exact Or.inl hin
    · exact Or.inr ⟨List.mem_cons_of_mem a hrest.1, hrest.2⟩

theorem mem_filterHeaders (allowed : List String) (inc : List (String × String))
    (p : String × String) (hp : p ∈ filterHeaders allowed inc) :
    p.1 ∈ allowed ∧ headersGet inc (jsToLower p.1) = some p.2 := by
  rcases mem_filterFold inc allowed [] p hp with habs | h
  · cases habs
  · exact h

theorem filterFold_get (inc : List (String × String)) (allowed : List String)
    (acc : List (String × String)) (k : String) :
    jsGet (allowed.foldl
      (fun acc key =>
        match headersGet inc (jsToLower key) with
        | some value => jsSet acc key value
        | none => acc) acc) k =
      if k ∈ allowed ∧ (headersGet inc (jsToLower k)).isSome then
        headersGet inc (jsToLower k)
      else jsGet acc k := by
  induction allowed generalizing acc with
  | nil => simp
  | cons a rest ih =>
    simp only [List.foldl_cons]
    rw [ih]
    by_cases hmem : k ∈ rest ∧ (headersGet inc (jsToLower k)).isSome
    · rw [if_pos hmem,
        if_pos ⟨List.mem_cons_of_mem a hmem.1, hmem.2⟩]
    · rw [if_neg hmem]
      by_cases hak : k = a
      · subst hak
        cases hG : headersGet inc (jsToLower k) with
        | none => simp
        | some v =>
          rw [if_pos ⟨List.mem_cons_self k rest, by simp⟩, jsGet_jsSet_self]
      · have houter : ¬(k ∈ a :: rest ∧ (headersGet inc (jsToLower k)).isSome) := by
          intro hc
          rcases List.mem_cons.1 hc.1 with h1 | h1
          · exact hak h1
          · exact hmem ⟨h1, hc.2⟩
        rw [if_neg houter]
        cases hG : headersGet inc (jsToLower a) with
        | none => rfl
        | some v => exact jsGet_jsSet_ne _ _ _ _ hak

theorem filterHeaders_get (allowed : List String) (inc : List (String × String))
    (k : String) :
    jsGet (filterHeaders allowed inc) k =
      if k ∈ allowed ∧ (headersGet inc (jsToLower k)).isSome then
        headersGet inc (jsToLower k)
      else none := by
  rw [show filterHeaders allowed inc = allowed.foldl
    (fun acc key =>
      match headersGet inc (jsToLower key) with
      | some value => jsSet acc key value
      | none => acc) [] from rfl, filterFold_get]
  simp [jsGet]

/-- Reading a key out of `{...m, ...filterHeaders allowed inc}`: keys from
the allow-list that the incoming headers carry win; anything else falls
through to `m`. -/
theorem spreadFold_filterHeaders_get (m : List (String × String))
    (allowed : List String) (inc : List (String × String)) (k : String) :
    jsGet (spreadFold m (filterHeaders allowed inc)) k =
      if k ∈ allowed ∧ (headersGet inc (jsToLower k)).isSome then
        headersGet inc (jsToLower k)
      else jsGet m k := by
  rw [spreadFold_get, jsGet_reverse_unique _ k
    (match headersGet inc (jsToLower k) with | some v => v | none => "")
    (by
      intro p hp hpk
      rcases mem_filterHeaders _ _ _ hp with ⟨_, hv⟩
      rw [hpk] at hv
      simp [hv]), filterHeaders_get]
  by_cases hcond : k ∈ allowed ∧ (headersGet inc (jsToLower k)).isSome
  · rcases Option.isSome_iff_exists.1 hcond.2 with ⟨v, hv⟩
    simp [hcond, hv]
  · simp [hcond]

/-! ## Lemmas on the redirect loop -/

theorem fetchLoopCore_trace_length (w : World) (fuel : Nat) :
    ∀ url redirectCount,
      ((fetchLoopCore w fuel url redirectCount).1).length ≤
        maxRedirects - redirectCount + 1 := by
  induction fuel with
  | zero =>
    intro url c
    simp [fetchLoopCore]
  | succ f ih =>
    intro url c
    rw [fetchLoopCore]
    split_ifs with hcond
    · cases hloc : headersGet ((w.fetch url)).headers "location" with
      | none => simp
      | some loc =>
        simp only [hloc]
        split_ifs with hempty
        · simp
        · cases hcheck : checkUrl w loc with
          | error m => simp [hcheck]
          | ok u =>
            simp only [hcheck, List.length_cons]
            have := ih loc (c + 1)
            have hc3 : c < maxRedirects := hcond.2
            omega
    · simp

theorem fetchLoopCore_trace_validated (w : World) (fuel : Nat) :
    ∀ url redirectCount v, v ∈ (fetchLoopCore w fuel url redirectCount).1 →
      v = url ∨ checkUrl w v = .ok () := by
  induction fuel with
  | zero =>
    intro url c v hv
    simp [fetchLoopCore] at hv
    exact Or.inl hv
  | succ f ih =>
    intro url c v hv
    rw [fetchLoopCore] at hv
    split_ifs at hv with hcond
    · cases hloc : headersGet ((w.fetch url)).headers "location" with
      | none =>
        simp only [hloc] at hv
        simp at hv
        exact Or.inl hv
      | some loc =>
        simp only [hloc] at hv
        split_ifs at hv with hempty
        · simp at hv
          exact Or.inl hv
        · cases hcheck : checkUrl w loc with
          | error m =>
            simp only [hcheck] at hv
            simp at hv
            exact Or.inl hv
          | ok u =>
            simp only [hcheck] at hv
            simp only [List.mem_cons] at hv
            rcases hv with hv | hv
            · exact Or.inl hv
            · rcases ih loc (c + 1) v hv with hvl | hvok
              · right
                rw [hvl]
                cases u
                exact hcheck
              · exact Or.inr hvok
    · simp at hv
      exact Or.inl hv

/-- A redirect chain in world `w`: from the start URL, `n` hops, each a
redirect-status response whose `Location` is non-empty and passes
`checkUrl`, ending at the final URL. -/
inductive Chain (w : World) : String → String → Nat → Prop
  | refl (u : String) : Chain w u u 0
  | step {u v t : String} {n : Nat}
      (hstatus : redirectCodes.contains (w.fetch u).status = true)
      (hloc : headersGet (w.fetch u).headers "location" = some v)
      (hne : v ≠ "")
      (hcheck : checkUrl w v = .ok ())
      (hchain : Chain w v t n) : Chain w u t (n + 1)

theorem fetchLoopCore_ok_of_chain (w : World) {u t : String} {n : Nat}
    (hchain : Chain w u t n) :
    ∀ redirectCount fuel, n + redirectCount ≤ maxRedirects →
      maxRedirects < fuel + redirectCount →
      redirectCodes.contains (w.fetch t).status = false →
      (fetchLoopCore w fuel u redirectCount).2 = .ok (w.fetch t) := by
  induction hchain with
  | refl u =>
    intro c fuel hn hfuel hstop
    match fuel with
    | 0 => omega
    | f + 1 =>
      rw [fetchLoopCore, if_neg (by rw [hstop]; simp)]
  | step hstatus hloc hne hcheck hchain ih =>
    intro c fuel hn hfuel hstop
    match fuel with
    | 0 => omega
    | f + 1 =>
      rw [fetchLoopCore, if_pos ⟨hstatus, by omega⟩]
      simp only [hloc, if_neg hne, hcheck]
      exact ih (c + 1) f (by omega) (by omega) hstop

/-! ## Lemmas on body streaming -/

/-- Total number of body bytes in a chunk list. -/
def totalBytes (chunks : List (List Nat)) : Nat :=
  (chunks.map List.length).sum

theorem readBody_none (chunks : List (List Nat)) :
    ∀ acc, readBody none acc chunks = .ok chunks := by
  induction chunks with
  | nil => intro acc; rfl
  | cons c rest ih =>
    intro acc
    rw [readBody, ih acc]
    rfl

theorem readBody_zero (chunks : List (List Nat)) :
    ∀ acc, readBody (some 0) acc chunks = .ok chunks := by
  induction chunks with
  | nil => intro acc; rfl
  | cons c rest ih =>
    intro acc
    rw [readBody, if_neg (by simp), ih acc]
    rfl

theorem readBody_ok (m : Nat) (chunks : List (List Nat)) :
    ∀ acc, acc + totalBytes chunks ≤ m →
      readBody (some m) acc chunks = .ok chunks := by
  induction chunks with
  | nil => intro acc _; rfl
  | cons c rest ih =>
    intro acc hle
    by_cases hm : m = 0
    · exact hm ▸ readBody_zero (c :: rest) acc
    · have htot : totalBytes (c :: rest) = c.length + totalBytes rest := by
        simp [totalBytes]
      rw [readBody, if_pos hm, if_neg (by omega), ih (acc + c.length) (by omega)]
      rfl

theorem readBody_too_large (m : Nat) (hm : m ≠ 0) (chunks : List (List Nat)) :
    ∀ acc, acc ≤ m → acc + totalBytes chunks > m →
      readBody (some m) acc chunks = .error (.http 413 tooLargeMsg) := by
  induction chunks with
  | nil =>
    intro acc hle hgt
    simp [totalBytes] at hgt
    omega
  | cons c rest ih =>
    intro acc hle hgt
    have htot : totalBytes (c :: rest) = c.length + totalBytes rest := by
      simp [totalBytes]
    rw [readBody, if_pos hm]
    by_cases hover : acc + c.length > m
    · rw [if_pos hover]
    · rw [if_neg hover, ih (acc + c.length) (by omega) (by omega)]
      rfl

/-! ## Lemmas on the handler -/

/-- No security-header name collides with `Content-Length`, the response
allow-list, or `Via`, so none of the handler's header manipulations can
displace a security header. -/
theorem securityHeaders_keys_fresh :
    ∀ p ∈ securityHeaders,
      p.1 ≠ "Content-Length" ∧ p.1 ∉ defaultResponseHeaders ∧ p.1 ≠ "Via" := by
  intro p hp
  fin_cases hp <;> refine ⟨?_, ?_, ?_⟩ <;> simp [defaultResponseHeaders]

/-- `write` keeps every security header that the headers object carries. -/
theorem write_keeps_security (sec : List (String × String)) (status : Nat)
    (body : String) (hsec : ∀ p ∈ securityHeaders, jsGet sec p.1 = some p.2) :
    ∀ p ∈ securityHeaders, jsGet (write sec status body).2.headers p.1 = some p.2 := by
  intro p hp
  obtain ⟨hcl, _, _⟩ := securityHeaders_keys_fresh p hp
  rw [write]
  by_cases h204 : status ≠ 204
  · simp only [if_pos h204]
    rw [jsGet_jsSet_ne _ _ _ _ hcl]
    exact hsec p hp
  · simp only [if_neg h204]
    exact hsec p hp

/-- The 2xx header object `{...sec, ...filtered, Via}` keeps every
security header that `sec` carries. -/
theorem success_keeps_security (sec uh : List (String × String)) (sn : String)
    (hsec : ∀ p ∈ securityHeaders, jsGet sec p.1 = some p.2) :
    ∀ p ∈ securityHeaders,
      jsGet (jsSet (spreadFold sec (filterHeaders defaultResponseHeaders uh)) "Via" sn)
        p.1 = some p.2 := by
  intro p hp
  obtain ⟨_, hresp, hvia⟩ := securityHeaders_keys_fresh p hp
  rw [jsGet_jsSet_ne _ _ _ _ hvia, spreadFold_filterHeaders_get,
    if_neg fun hc => hresp hc.1]
  exact hsec p hp

/-- Once the method check and the path split have succeeded, `handle` is
`handleVerified` on the second and third path segments. -/
theorem handle_reaches_verify (w : World) (secret serverName : String)
    (maxSize : Option Nat) (sec : List (String × String)) (req : Request)
    (t0 d h : String) (t : List String)
    (hm : req.method = "GET" ∨ req.method = "HEAD")
    (hs : splitOnSlash req.url = t0 :: d :: h :: t) :
    handle w secret serverName maxSize sec req =
      handleVerified w secret serverName maxSize sec req.method d h := by
  have hmne : ¬(req.method ≠ "GET" ∧ req.method ≠ "HEAD") := by
    rcases hm with hm | hm <;> simp [hm]
  unfold handle
  rw [if_neg hmne, hs, if_neg (show ¬(t0 :: d :: h :: t).length < 3 by simp)]

/-- Once the method check, the path split, `verifyHmac`, and `checkUrl`
have succeeded, `handle` is the fetch-and-emit stage `handleFetch`. -/
theorem handle_reaches_fetch (w : World) (secret serverName : String)
    (maxSize : Option Nat) (sec : List (String × String)) (req : Request)
    (t0 d h : String) (t : List String) (u : String)
    (hm : req.method = "GET" ∨ req.method = "HEAD")
    (hs : splitOnSlash req.url = t0 :: d :: h :: t)
    (hv : verifyHmac secret d h = .ok u)
    (hc : checkUrl w u = .ok ()) :
    handle w secret serverName maxSize sec req =
      handleFetch w serverName maxSize sec req.method u := by
  rw [handle_reaches_verify w secret serverName maxSize sec req t0 d h t hm hs]
  unfold handleVerified
  rw [hv]
  show handleChecked w serverName maxSize sec req.method u = _
  unfold handleChecked
  rw [hc]

/-- Security headers survive the whole `handleFetch` stage. -/
theorem handleFetch_keeps_security (w : World) (serverName : String)
    (maxSize : Option Nat) (sec : List (String × String)) (method url : String)
    (hsec : ∀ p ∈ securityHeaders, jsGet sec p.1 = some p.2) :
    ∀ p ∈ securityHeaders,
      jsGet (handleFetch w serverName maxSize sec method url).2.headers p.1 = some p.2 := by
  intro p hp
  unfold handleFetch
  cases hf : safeFetch w url method maxSize with
  | error e =>
    cases e with
    | http statusCode m => exact write_keeps_security _ _ _ hsec p hp
    | plain m => exact write_keeps_security _ _ _ hsec p hp
  | ok result =>
    show jsGet
      (if method = "HEAD" then
        (sec, ⟨204, successHeaders sec result.headers serverName, none⟩)
      else
        ((sec, ⟨200, successHeaders sec result.headers serverName, result.buffer⟩) :
          List (String × String) × WrittenResponse)).2.headers p.1 = some p.2
    by_cases hmh : method = "HEAD"
    · rw [if_pos hmh]
      exact success_keeps_security _ _ _ hsec p hp
    · rw [if_neg hmh]
      exact success_keeps_security _ _ _ hsec p hp

/-- Security headers survive the whole `handleVerified` stage. -/
theorem handleVerified_keeps_security (w : World) (secret serverName : String)
    (maxSize : Option Nat) (sec : List (String × String))
    (method receivedDigest hex : String)
    (hsec : ∀ p ∈ securityHeaders, jsGet sec p.1 = some p.2) :
    ∀ p ∈ securityHeaders,
      jsGet (handleVerified w secret serverName maxSize sec method receivedDigest hex).2.headers
        p.1 = some p.2 := by
  intro p hp
  unfold handleVerified
  cases hv : verifyHmac secret receivedDigest hex with
  | error e => exact write_keeps_security _ _ _ hsec p hp
  | ok decodedUrl =>
    show jsGet (handleChecked w serverName maxSize sec method decodedUrl).2.headers p.1 = _
    unfold handleChecked
    cases hc : checkUrl w decodedUrl with
    | error m => exact write_keeps_security _ _ _ hsec p hp
    | ok a => exact handleFetch_keeps_security _ _ _ _ _ _ hsec p hp

/-! ## Concrete worlds used as witnesses -/

/-- A world in which nothing parses, resolves, or serves. -/
def nullWorld : World where
  parseUrl := fun _ => none
  dnsLookup := fun _ => none
  ipRange := fun _ => "unicast"
  fetch := fun _ => ⟨500, [], none⟩

/-- A world that parses a `file:` URL (and nothing else). -/
def fileWorld : World where
  parseUrl := fun u =>
    if u = "file:///etc/passwd" then some ⟨"file:", ""⟩ else none
  dnsLookup := fun _ => none
  ipRange := fun _ => "unicast"
  fetch := fun _ => ⟨500, [], none⟩

/-- A world with one public host serving a 1024-free small PNG at
`http://a.im/r`, reached from `http://a.im/p` through two redirects. -/
def imageWorld : World where
  parseUrl := fun u =>
    if u = "http://a.im/p" ∨ u = "http://a.im/q" ∨ u = "http://a.im/r" then
      some ⟨"http:", "a.im"⟩
    else none
  dnsLookup := fun h => if h = "a.im" then some "1.2.3.4" else none
  ipRange := fun a => if a = "1.2.3.4" then "unicast" else "reserved"
  fetch := fun u =>
    if u = "http://a.im/p" then ⟨302, [("Location", "http://a.im/q")], none⟩
    else if u = "http://a.im/q" then ⟨302, [("Location", "http://a.im/r")], none⟩
    else if u = "http://a.im/r" then
      ⟨200, [("Content-Type", "image/png"), ("Content-Length", "3")],
        some [[1, 2], [3]]⟩
    else ⟨500, [], none⟩

/-! ## The claims -/

/-- C8: for every GET or HEAD request whose URL path splits into fewer
than three slash-separated segments, `handle` answers
`404 Malformed request`, and the response does not depend on the secret —
no HMAC computation is reached. -/
theorem c8_malformed_path_404 (w : World) (secret secret2 serverName : String)
    (maxSize : Option Nat) (sec : List (String × String)) (req : Request)
    (hm : req.method = "GET" ∨ req.method = "HEAD")
    (hlen : (splitOnSlash req.url).length < 3) :
    handle w secret serverName maxSize sec req = write sec 404 "Malformed request" ∧
    handle w secret serverName maxSize sec req =
      handle w secret2 serverName maxSize sec req := by
  have hmne : ¬(req.method ≠ "GET" ∧ req.method ≠ "HEAD") := by
    rcases hm with hm | hm <;> simp [hm]
  have hw : ∀ s, handle w s serverName maxSize sec req =
      write sec 404 "Malformed request" := by
    intro s
    unfold handle
    rw [if_neg hmne, if_pos hlen]
  exact ⟨hw secret, (hw secret).trans (hw secret2).symm⟩

/-- C8 witness: a GET for `/x` (one slash, two segments) gets
`404 Malformed request`. -/
theorem c8_witness :
    (("GET" : String) = "GET" ∨ ("GET" : String) = "HEAD") ∧
    (splitOnSlash "/x").length < 3 ∧
    handle nullWorld "myVerySecretSecret" "camomile" none securityHeaders
      ⟨"GET", "/x"⟩ = write securityHeaders 404 "Malformed request" :=
  ⟨Or.inl rfl, by decide,
    (c8_malformed_path_404 nullWorld "myVerySecretSecret" "other" "camomile" none
      securityHeaders ⟨"GET", "/x"⟩ (Or.inl rfl) (by decide)).1⟩

/-- C10: `handle` reads only the method, the second path segment (claimed
digest) and the third (hex-encoded URL): two requests of the same method
whose splits agree on those two segments — whatever the first segment and
any further segments are — get identical responses, so extra segments are
ignored and never by themselves cause a rejection. -/
theorem c10_extra_segments_ignored (w : World) (secret serverName : String)
    (maxSize : Option Nat) (sec : List (String × String)) (r1 r2 : Request)
    (a1 a2 d h : String) (t1 t2 : List String)
    (hmeq : r1.method = r2.method)
    (hs1 : splitOnSlash r1.url = a1 :: d :: h :: t1)
    (hs2 : splitOnSlash r2.url = a2 :: d :: h :: t2) :
    handle w secret serverName maxSize sec r1 =
      handle w secret serverName maxSize sec r2 := by
  by_cases hm : r1.method = "GET" ∨ r1.method = "HEAD"
  · have hm2 : r2.method = "GET" ∨ r2.method = "HEAD" := by
      rw [← hmeq]
      exact hm
    rw [handle_reaches_verify w secret serverName maxSize sec r1 a1 d h t1 hm hs1,
      handle_reaches_verify w secret serverName maxSize sec r2 a2 d h t2 hm2 hs2,
      hmeq]
  · have hmne1 : r1.method ≠ "GET" ∧ r1.method ≠ "HEAD" := by tauto
    have hmne2 : r2.method ≠ "GET" ∧ r2.method ≠ "HEAD" := by
      rw [← hmeq]
      exact hmne1
    unfold handle
    rw [if_pos hmne1, if_pos hmne2]

/-- C10 witness: `/d/h/x/y` and `/d/h` are answered identically. -/
theorem c10_witness :
    splitOnSlash "/d/h/x/y" = ["", "d", "h", "x", "y"] ∧
    splitOnSlash "/d/h" = ["", "d", "h"] ∧
    handle nullWorld "myVerySecretSecret" "camomile" none securityHeaders
        ⟨"GET", "/d/h/x/y"⟩ =
      handle nullWorld "myVerySecretSecret" "camomile" none securityHeaders
        ⟨"GET", "/d/h"⟩ :=
  ⟨by decide, by decide,
    c10_extra_segments_ignored nullWorld "myVerySecretSecret" "camomile" none
      securityHeaders ⟨"GET", "/d/h/x/y"⟩ ⟨"GET", "/d/h"⟩ "" "" "d" "h"
      ["x", "y"] [] rfl (by decide) (by decide)⟩

/-- C3: whatever request comes in and whatever branch `handle` takes —
405, 404, 403, 400, 413, 500, 200 or 204 — every entry of the
`securityHeaders` table (with its fixed value) is present in the headers
of the response written to the client, provided the module-level
`securityHeaders` object still carries them. -/
theorem c3_security_headers_always (w : World) (secret serverName : String)
    (maxSize : Option Nat) (sec : List (String × String)) (req : Request)
    (hsec : ∀ p ∈ securityHeaders, jsGet sec p.1 = some p.2) :
    ∀ p ∈ securityHeaders,
      jsGet (handle w secret serverName maxSize sec req).2.headers p.1 = some p.2 := by
  intro p hp
  by_cases h1 : req.method ≠ "GET" ∧ req.method ≠ "HEAD"
  · have he : handle w secret serverName maxSize sec req =
        write sec 405 "Method not allowed" := by
      unfold handle
      rw [if_pos h1]
    rw [he]
    exact write_keeps_security _ _ _ hsec p hp
  · have hm : req.method = "GET" ∨ req.method = "HEAD" := by tauto
    by_cases h2 : (splitOnSlash req.url).length < 3
    · have he : handle w secret serverName maxSize sec req =
          write sec 404 "Malformed request" := by
        unfold handle
        rw [if_neg h1, if_pos h2]
      rw [he]
      exact write_keeps_security _ _ _ hsec p hp
    · obtain ⟨x0, x1, x2, r, hsplit⟩ :
          ∃ x0 x1 x2 r, splitOnSlash req.url = x0 :: x1 :: x2 :: r := by
        rcases hlist : splitOnSlash req.url with _ | ⟨a, _ | ⟨b, _ | ⟨c, r⟩⟩⟩
        · rw [hlist] at h2
          simp at h2
        · rw [hlist] at h2
          simp at h2
        · rw [hlist] at h2
          simp at h2
        · exact ⟨a, b, c, r, rfl⟩
      rw [handle_reaches_verify w secret serverName maxSize sec req x0 x1 x2 r
        hm hsplit]
      exact handleVerified_keeps_security _ _ _ _ _ _ _ _ hsec p hp

/-- C3 witness: a DELETE request is answered 405 and the response headers
carry all five security headers. -/
theorem c3_witness :
    (∀ p ∈ securityHeaders, jsGet securityHeaders p.1 = some p.2) ∧
    (∀ p ∈ securityHeaders,
      jsGet (handle nullWorld "myVerySecretSecret" "camomile" none securityHeaders
        ⟨"DELETE", "/a/b"⟩).2.headers p.1 = some p.2) :=
  ⟨by decide,
    c3_security_headers_always nullWorld "myVerySecretSecret" "camomile" none
      securityHeaders ⟨"DELETE", "/a/b"⟩ (by decide)⟩

/-- C7: the securityHeaders table is mutated by the code.  `write` assigns
`Content-Length` into its default `headers` argument, which is the
module-level `securityHeaders` object itself, so after handling a single
DELETE request (405, body `Method not allowed`, 18 bytes) the object has
a sixth key `Content-Length` — the code contradicts the
`Readonly<Record<string, string>>` annotation in `src/lib/constants.js`. -/
theorem c7_security_headers_mutated :
    ((handle nullWorld "myVerySecretSecret" "camomile" none securityHeaders
        ⟨"DELETE", "/"⟩).1).map Prod.fst =
      ["X-Frame-Options", "X-XSS-Protection", "X-Content-Type-Options",
        "Content-Security-Policy", "Strict-Transport-Security", "Content-Length"] ∧
    jsGet (handle nullWorld "myVerySecretSecret" "camomile" none securityHeaders
        ⟨"DELETE", "/"⟩).1 "Content-Length" = some "18" := by
  constructor
  · decide
  · decide

/-- C2: for every URL string the platform URL parser accepts, `checkUrl`
fails exactly when the scheme is not `http:`/`https:` (with the
non-http-protocol message), the hostname does not resolve (with the
could-not-look-up message), or the resolved address is not classified
`unicast` (with `Bad url host`) — and whenever `checkUrl` fails with a
message, a request that reaches the SSRF check is answered status 400
with exactly that message. -/
theorem c2_checkUrl_classification :
    (∀ (w : World) (url : String) (parts : UrlParts),
      w.parseUrl url = some parts →
      ((¬(parts.protocol = "http:" ∨ parts.protocol = "https:") →
        checkUrl w url = .error ("Unexpected non-http protocol `" ++
          parts.protocol ++ "`, expected `http:` or `https:`")) ∧
      ((parts.protocol = "http:" ∨ parts.protocol = "https:") →
        w.dnsLookup parts.hostname = none →
        checkUrl w url = .error ("Could not look up host `" ++
          parts.hostname ++ "`")) ∧
      (∀ address, (parts.protocol = "http:" ∨ parts.protocol = "https:") →
        w.dnsLookup parts.hostname = some address →
        w.ipRange address ≠ "unicast" →
        checkUrl w url = .error "Bad url host") ∧
      (checkUrl w url = .ok () ↔
        ((parts.protocol = "http:" ∨ parts.protocol = "https:") ∧
          ∃ address, w.dnsLookup parts.hostname = some address ∧
            w.ipRange address = "unicast")))) ∧
    (∀ (w : World) (secret serverName : String) (maxSize : Option Nat)
      (sec : List (String × String)) (req : Request) (t0 d h : String)
      (t : List String) (u m : String),
      (req.method = "GET" ∨ req.method = "HEAD") →
      splitOnSlash req.url = t0 :: d :: h :: t →
      verifyHmac secret d h = .ok u →
      checkUrl w u = .error m →
      handle w secret serverName maxSize sec req = write sec 400 m) := by
  constructor
  · intro w url parts hparse
    have hck : checkUrl w url = checkUrlParsed w parts := by
      unfold checkUrl
      rw [hparse]
    refine ⟨?_, ?_, ?_, ?_⟩
    · intro hproto
      rw [hck]
      unfold checkUrlParsed
      rw [if_pos (by simpa using hproto)]
    · intro hproto hdns
      have hmem : parts.protocol ∈ ["http:", "https:"] := by
        rcases hproto with hp | hp <;> simp [hp]
      rw [hck]
      unfold checkUrlParsed
      rw [if_neg fun hn => hn hmem, hdns]
    · intro address hproto hdns hrange
      have hmem : parts.protocol ∈ ["http:", "https:"] := by
        rcases hproto with hp | hp <;> simp [hp]
      rw [hck]
      unfold checkUrlParsed
      rw [if_neg fun hn => hn hmem, hdns]
      show (if w.ipRange address ≠ "unicast" then
          (.error "Bad url host" : Except String Unit)
        else .ok ()) = .error "Bad url host"
      rw [if_pos hrange]
    · rw [hck]
      constructor
      · intro hok
        unfold checkUrlParsed at hok
        by_cases hproto : parts.protocol = "http:" ∨ parts.protocol = "https:"
        · have hmem : parts.protocol ∈ ["http:", "https:"] := by
            rcases hproto with hp | hp <;> simp [hp]
          refine ⟨hproto, ?_⟩
          rw [if_neg fun hn => hn hmem] at hok
          cases hdns : w.dnsLookup parts.hostname with
          | none => rw [hdns] at hok; cases hok
          | some address =>
            rw [hdns] at hok
            refine ⟨address, rfl, ?_⟩
            change (if w.ipRange address ≠ "unicast" then
                (.error "Bad url host" : Except String Unit)
              else .ok ()) = .ok () at hok
            by_cases hrange : w.ipRange address = "unicast"
            · exact hrange
            · rw [if_pos hrange] at hok
              cases hok
        · rw [if_pos (by simpa using hproto)] at hok
          cases hok
      · rintro ⟨hproto, address, hdns, hrange⟩
        have hmem : parts.protocol ∈ ["http:", "https:"] := by
          rcases hproto with hp | hp <;> simp [hp]
        unfold checkUrlParsed
        rw [if_neg fun hn => hn hmem, hdns]
        show (if w.ipRange address ≠ "unicast" then
            (.error "Bad url host" : Except String Unit)
          else .ok ()) = .ok ()
        rw [if_neg (by simp [hrange])]
  · intro w secret serverName maxSize sec req t0 d h t u m hm hs hv hc
    rw [handle_reaches_verify w secret serverName maxSize sec req t0 d h t hm hs]
    unfold handleVerified
    rw [hv]
    show handleChecked w serverName maxSize sec req.method u = _
    unfold handleChecked
    rw [hc]

/-- C2 witness: a `file:` URL is rejected with the non-http-protocol
message. -/
theorem c2_witness :
    fileWorld.parseUrl "file:///etc/passwd" = some ⟨"file:", ""⟩ ∧
    checkUrl fileWorld "file:///etc/passwd" =
      .error "Unexpected non-http protocol `file:`, expected `http:` or `https:`" :=
  ⟨rfl,
    (c2_checkUrl_classification.1 fileWorld "file:///etc/passwd" ⟨"file:", ""⟩
      rfl).1 (by decide)⟩

/-! ## The hex round trip -/

theorem hexDigitsCore_small (f n : Nat) (h : n < 16) :
    hexDigitsCore f n = [hexDigitChar n] := by
  cases f with
  | zero => rw [hexDigitsCore, Nat.mod_eq_of_lt h]
  | succ f => rw [hexDigitsCore, if_pos h]

/-- For a byte, `b.toString(16).padStart(2, '0')` is the two hex digits of
the byte. -/
theorem padStart2_byte (b : Nat) (hb : b < 256) :
    padStart2 (natToHexDigits b) = [hexDigitChar (b / 16), hexDigitChar (b % 16)] := by
  by_cases h16 : b < 16
  · rw [natToHexDigits, hexDigitsCore_small b b h16, padStart2, if_pos (by simp)]
    rw [Nat.div_eq_of_lt h16, Nat.mod_eq_of_lt h16]
    rfl
  · obtain ⟨f, rfl⟩ : ∃ f, b = f + 1 := ⟨b - 1, by omega⟩
    rw [natToHexDigits, hexDigitsCore, if_neg h16,
      hexDigitsCore_small f ((f + 1) / 16) (by omega)]
    rw [padStart2, if_neg (by simp)]
    rfl

theorem hexDigitVal_hexDigitChar : ∀ n, n < 16 → hexDigitVal (hexDigitChar n) = some n := by
  decide

/-- `Buffer.from(hexEncode(bytes), 'hex')` recovers the bytes. -/
theorem bufferFromHex_hexEncode (U : List Nat) (hU : ∀ b ∈ U, b < 256) :
    bufferFromHex (hexEncode U) = U := by
  induction U with
  | nil => rfl
  | cons b rest ih =>
    have hb : b < 256 := hU b (List.mem_cons_self b rest)
    have hrest : ∀ x ∈ rest, x < 256 := fun x hx => hU x (List.mem_cons_of_mem b hx)
    show bufferFromHexChars ((b :: rest).flatMap fun x => padStart2 (natToHexDigits x)) = b :: rest
    rw [List.flatMap_cons, padStart2_byte b hb, List.cons_append, List.cons_append,
      List.nil_append, bufferFromHexChars,
      hexDigitVal_hexDigitChar (b / 16) (by omega),
      hexDigitVal_hexDigitChar (b % 16) (by omega)]
    show (16 * (b / 16) + b % 16) :: bufferFromHexChars (rest.flatMap fun x => padStart2 (natToHexDigits x)) = b :: rest
    rw [show 16 * (b / 16) + b % 16 = b by omega]
    exact congrArg (b :: ·) (ih hrest)

/-- The round-trip law behind the HMAC URL codec: signing the hex encoding
of any valid-UTF-8 byte string verifies and returns its decoded string.
Validity is expressed as stability of decode-then-encode, which holds
exactly for the UTF-8 encodings of strings. -/
theorem verifyHmac_roundtrip_general (secret : String) (U : List Nat)
    (hU : ∀ b ∈ U, b < 256) (hvalid : strBytes (bufferToString U) = U) :
    verifyHmac secret (hexEncode (hmacSha1 (strBytes secret) U)) (hexEncode U) =
      .ok (bufferToString U) := by
  unfold verifyHmac
  rw [bufferFromHex_hexEncode U hU, hvalid, if_neg (by simp)]

/-- C5 (amended): for every byte string `U` below 256 per byte that is
valid UTF-8 — stated as: decoding `U` to a string and re-encoding gives
back `U` — and every non-empty secret `S`, verifying the pair
(hex of HMAC-SHA-1 of `U` under `S`, hex of `U`) succeeds and returns the
string decoded from `U`. -/
theorem c5_hmac_roundtrip (S : String) (hS : S ≠ "") (U : List Nat)
    (hU : ∀ b ∈ U, b < 256) (hvalid : strBytes (bufferToString U) = U) :
    verifyHmac S (hexEncode (hmacSha1 (strBytes S) U)) (hexEncode U) =
      .ok (bufferToString U) :=
  verifyHmac_roundtrip_general S U hU hvalid

/-- C5 witness: the law at `S = "k"` and `U = "hi"` in UTF-8. -/
theorem c5_witness :
    ("k" : String) ≠ "" ∧ (∀ b ∈ [104, 105], b < 256) ∧
    strBytes (bufferToString [104, 105]) = [104, 105] ∧
    verifyHmac "k" (hexEncode (hmacSha1 (strBytes "k") [104, 105]))
      (hexEncode [104, 105]) = .ok "hi" := by
  refine ⟨by decide, by decide, by decide, ?_⟩
  rw [c5_hmac_roundtrip "k" (by decide) [104, 105] (by decide) (by decide)]
  decide

set_option maxRecDepth 40000 in
set_option maxHeartbeats 4000000 in
/-- C5 counterexample: the claim as stated — for every byte string —
fails at `U = [0xff]`, which is not valid UTF-8: Node decodes it to
U+FFFD, the HMAC is recomputed over the replacement character's UTF-8
bytes, the digests differ, and verification throws instead of
succeeding. -/
theorem c5_counterexample :
    verifyHmac "k" (hexEncode (hmacSha1 (strBytes "k") [255])) (hexEncode [255]) =
      .error "URL integrity check failed" := by
  decide

/-! ## Stage lemmas for `safeFetch` -/

theorem safeFetch_of_loop (w : World) (url method : String) (maxSize : Option Nat)
    (r : Response) (hloop : (fetchLoop w url).2 = .ok r) :
    safeFetch w url method maxSize = safeFetchResponse r method maxSize := by
  unfold safeFetch
  rw [hloop]

theorem safeFetchResponse_of_ct (r : Response) (method : String)
    (maxSize : Option Nat) (ct : String)
    (hct : headersGet r.headers "content-type" = some ct)
    (hctne : ct ≠ "") (hmime : ct ∈ defaultMimeTypes) :
    safeFetchResponse r method maxSize = safeFetchBody r method maxSize := by
  unfold safeFetchResponse
  rw [hct]
  show (if ct = "" then .error (.http 400 ctMissingMsg)
    else if ct ∉ defaultMimeTypes then .error (.http 400 ctBadMsg)
    else safeFetchBody r method maxSize) = safeFetchBody r method maxSize
  rw [if_neg hctne, if_neg fun hn => hn hmime]

theorem safeFetchBody_get (r : Response) (maxSize : Option Nat)
    (chunks : List (List Nat)) (hbody : r.body = some chunks) :
    safeFetchBody r "GET" maxSize =
      (readBody maxSize 0 chunks).map fun cs => ⟨some cs.flatten, r.headers⟩ := by
  unfold safeFetchBody
  rw [if_neg (by decide), hbody]

/-- C6 (amended): Node's `Buffer.from(hex, 'hex')` never throws on
malformed input — it truncates at the first invalid or incomplete digit
pair — so a request whose hex segment has odd length or a non-hex
character is answered `403 Bad signature` exactly because the claimed
digest does not match the HMAC of the URL decoded from the truncated
bytes (which it cannot, when the digest was computed for the real URL). -/
theorem c6_bad_hex_403 (w : World) (secret serverName : String)
    (maxSize : Option Nat) (sec : List (String × String)) (req : Request)
    (t0 d hx : String) (t : List String)
    (hm : req.method = "GET" ∨ req.method = "HEAD")
    (hs : splitOnSlash req.url = t0 :: d :: hx :: t)
    (hmal : ¬ Even hx.length ∨ ∃ c ∈ hx.data, hexDigitVal c = none)
    (hne : d ≠ hexEncode (hmacSha1 (strBytes secret)
      (strBytes (bufferToString (bufferFromHex hx))))) :
    handle w secret serverName maxSize sec req = write sec 403 "Bad signature" := by
  rw [handle_reaches_verify w secret serverName maxSize sec req t0 d hx t hm hs]
  unfold handleVerified
  rw [show verifyHmac secret d hx = .error "URL integrity check failed" from by
    unfold verifyHmac
    rw [if_pos (Ne.symm hne)]]

set_option maxRecDepth 40000 in
set_option maxHeartbeats 4000000 in
/-- C6 witness: `/zz/abc` — an odd-length hex segment with non-hex
characters in the digest — is answered `403 Bad signature`. -/
theorem c6_witness :
    (¬ Even ("abc" : String).length ∨
      ∃ c ∈ ("abc" : String).data, hexDigitVal c = none) ∧
    handle nullWorld "s" "camomile" none securityHeaders ⟨"GET", "/zz/abc"⟩ =
      write securityHeaders 403 "Bad signature" := by
  refine ⟨Or.inl (by decide), ?_⟩
  exact c6_bad_hex_403 nullWorld "s" "camomile" none securityHeaders
    ⟨"GET", "/zz/abc"⟩ "" "zz" "abc" [] (Or.inl rfl) (by decide)
    (Or.inl (by decide)) (by decide)

set_option maxRecDepth 40000 in
set_option maxHeartbeats 8000000 in
/-- C6 counterexample: the claim as stated — malformed hex always yields
403 — is false: with the odd-length hex segment `6874747` (truncated
decode `htt`) and a claimed digest equal to the HMAC of `htt`, the
signature check passes and the request is answered 400 (for the
unparseable URL `htt`), not 403. -/
theorem c6_counterexample :
    ¬ Even ("6874747" : String).length ∧
    (handle nullWorld "s" "camomile" none securityHeaders
      ⟨"GET", "/" ++ hexEncode (hmacSha1 (strBytes "s") (strBytes "htt")) ++
        "/6874747"⟩).2.status = 400 := by
  constructor
  · decide
  · decide

/-- C9: a HEAD request that passes the signature, SSRF and fetch checks is
answered 204 — not 200 — with no body, and its headers are the security
headers plus the filtered upstream headers plus `Via`: in particular the
upstream `Content-Length` and `Content-Type` are preserved and `Via`
carries the server name. -/
theorem c9_head_success_204 (w : World) (secret serverName : String)
    (maxSize : Option Nat) (sec : List (String × String)) (req : Request)
    (t0 d hx : String) (t : List String) (u : String)
    (uh : List (String × String))
    (hm : req.method = "HEAD")
    (hs : splitOnSlash req.url = t0 :: d :: hx :: t)
    (hv : verifyHmac secret d hx = .ok u)
    (hc : checkUrl w u = .ok ())
    (hf : safeFetch w u "HEAD" maxSize = .ok ⟨none, uh⟩) :
    handle w secret serverName maxSize sec req =
      (sec, ⟨204, successHeaders sec uh serverName, none⟩) ∧
    (∀ v, headersGet uh "content-length" = some v →
      jsGet (successHeaders sec uh serverName) "Content-Length" = some v) ∧
    (∀ v, headersGet uh "content-type" = some v →
      jsGet (successHeaders sec uh serverName) "Content-Type" = some v) ∧
    jsGet (successHeaders sec uh serverName) "Via" = some serverName := by
  refine ⟨?_, ?_, ?_, ?_⟩
  · rw [handle_reaches_fetch w secret serverName maxSize sec req t0 d hx t u
      (Or.inr hm) hs hv hc]
    unfold handleFetch
    rw [hm, hf]
    show (if ("HEAD" : String) = "HEAD" then
        (sec, ⟨204, successHeaders sec uh serverName, none⟩)
      else ((sec, ⟨200, successHeaders sec uh serverName, none⟩) :
        List (String × String) × WrittenResponse)) = _
    rw [if_pos rfl]
  · intro v hcl
    unfold successHeaders
    rw [jsGet_jsSet_ne _ _ _ _ (by decide), spreadFold_filterHeaders_get]
    have hjl : jsToLower "Content-Length" = "content-length" := by decide
    rw [if_pos ⟨by decide, by rw [hjl, hcl]; rfl⟩, hjl, hcl]
  · intro v hty
    unfold successHeaders
    rw [jsGet_jsSet_ne _ _ _ _ (by decide), spreadFold_filterHeaders_get]
    have hjl : jsToLower "Content-Type" = "content-type" := by decide
    rw [if_pos ⟨by decide, by rw [hjl, hty]; rfl⟩, hjl, hty]
  · unfold successHeaders
    rw [jsGet_jsSet_self]

set_option maxRecDepth 40000 in
set_option maxHeartbeats 8000000 in
/-- C9 witness: a signed HEAD request for `http://a.im/r` in `imageWorld`
is answered 204 with the upstream `Content-Length: 3` preserved. -/
theorem c9_witness :
    verifyHmac "k" (hexEncode (hmacSha1 (strBytes "k") (strBytes "http://a.im/r")))
      (hexEncode (strBytes "http://a.im/r")) = .ok "http://a.im/r" ∧
    handle imageWorld "k" "camomile" (some 104857600) securityHeaders
      ⟨"HEAD", "/" ++ hexEncode (hmacSha1 (strBytes "k") (strBytes "http://a.im/r")) ++
        "/" ++ hexEncode (strBytes "http://a.im/r")⟩ =
      (securityHeaders, ⟨204,
        successHeaders securityHeaders
          [("Content-Type", "image/png"), ("Content-Length", "3")] "camomile",
        none⟩) ∧
    jsGet (successHeaders securityHeaders
        [("Content-Type", "image/png"), ("Content-Length", "3")] "camomile")
      "Content-Length" = some "3" := by
  have hv : verifyHmac "k"
      (hexEncode (hmacSha1 (strBytes "k") (strBytes "http://a.im/r")))
      (hexEncode (strBytes "http://a.im/r")) = .ok "http://a.im/r" := by
    have h1 := verifyHmac_roundtrip_general "k" (strBytes "http://a.im/r")
      (by decide) (by decide)
    rw [show bufferToString (strBytes "http://a.im/r") = "http://a.im/r" from by decide] at h1
    exact h1
  have hc9 := c9_head_success_204 imageWorld "k" "camomile" (some 104857600)
    securityHeaders
    ⟨"HEAD", "/" ++ hexEncode (hmacSha1 (strBytes "k") (strBytes "http://a.im/r")) ++
      "/" ++ hexEncode (strBytes "http://a.im/r")⟩
    "" (hexEncode (hmacSha1 (strBytes "k") (strBytes "http://a.im/r")))
    (hexEncode (strBytes "http://a.im/r")) [] "http://a.im/r"
    [("Content-Type", "image/png"), ("Content-Length", "3")]
    rfl (by decide) hv (by decide) (by decide)
  exact ⟨hv, hc9.1, hc9.2.1 "3" (by decide)⟩

theorem totalBytes_append (a b : List (List Nat)) :
    totalBytes (a ++ b) = totalBytes a + totalBytes b := by
  simp [totalBytes]

/-- C4: on a GET whose upstream body streaming is reached with a nonzero
`maxSize`: if the chunks sum to more than `maxSize`, the fetch fails with
`HttpError(413)` — and does so for any continuation of the stream beyond
the crossing point, i.e. without reading further — and the client is
answered 413 with the fixed message; if they sum to at most `maxSize`,
the full body is buffered and served with status 200. -/
theorem c4_size_limit (w : World) (secret serverName : String)
    (sec : List (String × String)) (req : Request)
    (t0 d hx : String) (t : List String) (u : String)
    (m : Nat) (r : Response) (ct : String) (chunks : List (List Nat))
    (hm : req.method = "GET")
    (hs : splitOnSlash req.url = t0 :: d :: hx :: t)
    (hv : verifyHmac secret d hx = .ok u)
    (hc : checkUrl w u = .ok ())
    (hloop : (fetchLoop w u).2 = .ok r)
    (hct : headersGet r.headers "content-type" = some ct)
    (hctne : ct ≠ "")
    (hmime : ct ∈ defaultMimeTypes)
    (hbody : r.body = some chunks)
    (hm0 : 0 < m) :
    (totalBytes chunks > m →
      safeFetch w u "GET" (some m) = .error (.http 413 tooLargeMsg) ∧
      handle w secret serverName (some m) sec req = write sec 413 tooLargeMsg ∧
      (∀ extra, readBody (some m) 0 (chunks ++ extra) =
        .error (.http 413 tooLargeMsg))) ∧
    (totalBytes chunks ≤ m →
      safeFetch w u "GET" (some m) = .ok ⟨some chunks.flatten, r.headers⟩ ∧
      handle w secret serverName (some m) sec req =
        (sec, ⟨200, successHeaders sec r.headers serverName,
          some chunks.flatten⟩)) := by
  have hchain : safeFetch w u "GET" (some m) =
      (readBody (some m) 0 chunks).map fun cs => ⟨some cs.flatten, r.headers⟩ := by
    rw [safeFetch_of_loop w u "GET" (some m) r hloop,
      safeFetchResponse_of_ct r "GET" (some m) ct hct hctne hmime,
      safeFetchBody_get r (some m) chunks hbody]
  have hhandle : handle w secret serverName (some m) sec req =
      handleFetch w serverName (some m) sec req.method u :=
    handle_reaches_fetch w secret serverName (some m) sec req t0 d hx t u
      (Or.inl hm) hs hv hc
  constructor
  · intro hover
    have hsf : safeFetch w u "GET" (some m) = .error (.http 413 tooLargeMsg) := by
      rw [hchain, readBody_too_large m (by omega) chunks 0 (by omega) (by omega)]
      rfl
    refine ⟨hsf, ?_, ?_⟩
    · rw [hhandle, hm]
      unfold handleFetch
      rw [hsf]
    · intro extra
      refine readBody_too_large m (by omega) (chunks ++ extra) 0 (by omega) ?_
      rw [totalBytes_append]
      omega
  · intro hle
    have hsf : safeFetch w u "GET" (some m) = .ok ⟨some chunks.flatten, r.headers⟩ := by
      rw [hchain, readBody_ok m chunks 0 (by omega)]
      rfl
    refine ⟨hsf, ?_⟩
    rw [hhandle, hm]
    unfold handleFetch
    rw [hsf]
    show (if ("GET" : String) = "HEAD" then
        (sec, ⟨204, successHeaders sec r.headers serverName, none⟩)
      else ((sec, ⟨200, successHeaders sec r.headers serverName,
        some chunks.flatten⟩) : List (String × String) × WrittenResponse)) = _
    rw [if_neg (by decide)]

set_option maxRecDepth 40000 in
set_option maxHeartbeats 8000000 in
/-- C4 witness: the 3-byte image at `http://a.im/r`, signed with secret
`"k"`, is refused with 413 under `maxSize = 2` and served in full with
200 under `maxSize = 100`. -/
theorem c4_witness :
    totalBytes [[1, 2], [3]] > 2 ∧ totalBytes [[1, 2], [3]] ≤ 100 ∧
    handle imageWorld "k" "camomile" (some 2) securityHeaders
      ⟨"GET", "/" ++ hexEncode (hmacSha1 (strBytes "k") (strBytes "http://a.im/r")) ++
        "/" ++ hexEncode (strBytes "http://a.im/r")⟩ =
      write securityHeaders 413 tooLargeMsg ∧
    handle imageWorld "k" "camomile" (some 100) securityHeaders
      ⟨"GET", "/" ++ hexEncode (hmacSha1 (strBytes "k") (strBytes "http://a.im/r")) ++
        "/" ++ hexEncode (strBytes "http://a.im/r")⟩ =
      (securityHeaders, ⟨200,
        successHeaders securityHeaders
          [("Content-Type", "image/png"), ("Content-Length", "3")] "camomile",
        some (([[1, 2], [3]] : List (List Nat)).flatten)⟩) := by
  have hv : verifyHmac "k"
      (hexEncode (hmacSha1 (strBytes "k") (strBytes "http://a.im/r")))
      (hexEncode (strBytes "http://a.im/r")) = .ok "http://a.im/r" := by
    have h1 := verifyHmac_roundtrip_general "k" (strBytes "http://a.im/r")
      (by decide) (by decide)
    rw [show bufferToString (strBytes "http://a.im/r") = "http://a.im/r" from by decide] at h1
    exact h1
  have hover := (c4_size_limit imageWorld "k" "camomile" securityHeaders
    ⟨"GET", "/" ++ hexEncode (hmacSha1 (strBytes "k") (strBytes "http://a.im/r")) ++
      "/" ++ hexEncode (strBytes "http://a.im/r")⟩
    "" (hexEncode (hmacSha1 (strBytes "k") (strBytes "http://a.im/r")))
    (hexEncode (strBytes "http://a.im/r")) [] "http://a.im/r" 2
    ⟨200, [("Content-Type", "image/png"), ("Content-Length", "3")],
      some [[1, 2], [3]]⟩
    "image/png" [[1, 2], [3]] rfl (by decide) hv (by decide) (by decide)
    (by decide) (by decide) (by decide) (by decide) (by decide)).1 (by decide)
  have hunder := (c4_size_limit imageWorld "k" "camomile" securityHeaders
    ⟨"GET", "/" ++ hexEncode (hmacSha1 (strBytes "k") (strBytes "http://a.im/r")) ++
      "/" ++ hexEncode (strBytes "http://a.im/r")⟩
    "" (hexEncode (hmacSha1 (strBytes "k") (strBytes "http://a.im/r")))
    (hexEncode (strBytes "http://a.im/r")) [] "http://a.im/r" 100
    ⟨200, [("Content-Type", "image/png"), ("Content-Length", "3")],
      some [[1, 2], [3]]⟩
    "image/png" [[1, 2], [3]] rfl (by decide) hv (by decide) (by decide)
    (by decide) (by decide) (by decide) (by decide) (by decide)).2 (by decide)
  exact ⟨by decide, by decide, hover.2.1, hunder.2⟩

/-- C1: (i) the redirect loop of `safeFetch` fetches at most
`maxRedirects + 1 = 4` URLs, i.e. follows at most 3 redirect hops;
(ii) every URL it fetches other than the starting one has passed
`checkUrl`; (iii) for every redirect chain of length at most 3 whose hops
all carry a non-empty `Location` passing SSRF validation and whose final
response is an allowed image (and, for a body-reading method, has a body
within the size cap), `safeFetch` succeeds. -/
theorem c1_redirect_policy :
    (∀ (w : World) (url : String),
      ((fetchLoop w url).1).length ≤ maxRedirects + 1) ∧
    (∀ (w : World) (url v : String),
      v ∈ (fetchLoop w url).1 → v = url ∨ checkUrl w v = .ok ()) ∧
    (∀ (w : World) (u tfin method : String) (n : Nat) (maxSize : Option Nat)
      (ct : String),
      Chain w u tfin n → n ≤ maxRedirects →
      redirectCodes.contains (w.fetch tfin).status = false →
      headersGet (w.fetch tfin).headers "content-type" = some ct →
      ct ≠ "" → ct ∈ defaultMimeTypes →
      (method = "HEAD" ∨ ∃ chunks, (w.fetch tfin).body = some chunks ∧
        ∀ m, maxSize = some m → 0 < m → totalBytes chunks ≤ m) →
      ∃ res, safeFetch w u method maxSize = .ok res) := by
  refine ⟨?_, ?_, ?_⟩
  · intro w url
    have h := fetchLoopCore_trace_length w (maxRedirects + 1) url 0
    calc ((fetchLoop w url).1).length ≤ maxRedirects - 0 + 1 := h
    _ ≤ maxRedirects + 1 := by omega
  · intro w url v hv
    exact fetchLoopCore_trace_validated w (maxRedirects + 1) url 0 v hv
  · intro w u tfin method n maxSize ct hchain hn hstop hct hctne hmime hbody
    have hloop : (fetchLoop w u).2 = .ok (w.fetch tfin) :=
      fetchLoopCore_ok_of_chain w hchain 0 (maxRedirects + 1) (by omega)
        (by omega) hstop
    have hsf : safeFetch w u method maxSize =
        safeFetchBody (w.fetch tfin) method maxSize := by
      rw [safeFetch_of_loop w u method maxSize (w.fetch tfin) hloop,
        safeFetchResponse_of_ct (w.fetch tfin) method maxSize ct hct hctne hmime]
    by_cases hmh : method = "HEAD"
    · refine ⟨⟨none, (w.fetch tfin).headers⟩, ?_⟩
      rw [hsf]
      unfold safeFetchBody
      rw [if_pos hmh]
    · rcases hbody with hH | ⟨chunks, hb, hsz⟩
      · exact absurd hH hmh
      · refine ⟨⟨some chunks.flatten, (w.fetch tfin).headers⟩, ?_⟩
        rw [hsf]
        unfold safeFetchBody
        rw [if_neg hmh, hb]
        show ((readBody maxSize 0 chunks).map
          fun cs => (⟨some cs.flatten, (w.fetch tfin).headers⟩ : SafeFetchResult)) =
            .ok (⟨some chunks.flatten, (w.fetch tfin).headers⟩ : SafeFetchResult)
        cases maxSize with
        | none => rw [readBody_none chunks 0]; rfl
        | some m =>
          by_cases hm0 : m = 0
          · rw [hm0, readBody_zero chunks 0]
            rfl
          · rw [readBody_ok m chunks 0
              (by have := hsz m rfl (by omega); omega)]
            rfl

/-- C1 witness: in `imageWorld`, the 2-hop chain
`http://a.im/p → /q → /r` ends at an allowed 3-byte PNG and the GET
succeeds; the loop's trace is within the 4-fetch bound. -/
theorem c1_witness :
    Chain imageWorld "http://a.im/p" "http://a.im/r" 2 ∧
    ((fetchLoop imageWorld "http://a.im/p").1).length ≤ maxRedirects + 1 ∧
    (∃ res, safeFetch imageWorld "http://a.im/p" "GET" (some 104857600) = .ok res) := by
  have hchain : Chain imageWorld "http://a.im/p" "http://a.im/r" 2 := by
    refine @Chain.step imageWorld "http://a.im/p" "http://a.im/q" "http://a.im/r" 1
      (by decide) (by decide) (by decide) (by decide) ?_
    refine @Chain.step imageWorld "http://a.im/q" "http://a.im/r" "http://a.im/r" 0
      (by decide) (by decide) (by decide) (by decide) ?_
    exact Chain.refl "http://a.im/r"
  refine ⟨hchain, c1_redirect_policy.1 imageWorld "http://a.im/p", ?_⟩
  exact c1_redirect_policy.2.2 imageWorld "http://a.im/p" "http://a.im/r" "GET" 2
    (some 104857600) "image/png" hchain (by decide) (by decide) (by decide)
    (by decide) (by decide)
    (Or.inr ⟨[[1, 2], [3]], by decide, fun m hm h0 => by cases hm; decide⟩)

end Camomile
